import Mathlib

/-!
Shallow embedding of `gr-aoa/python/aoa/switch_sync.py` (class `switch_sync`).

Modelling conventions:
* Complex input samples are modelled as pairs of rationals `(re, im)`
  (exact arithmetic in place of `complex64` floats), so that the threshold
  comparisons of the sync detector are decidable and executable.
* The AOA estimate (`self.lastAOA`) is a Mathlib complex number; the
  magnitude/cos/sin arithmetic of `calculate_aoa` lives in `ℝ`.
* The per-antenna bins (`self.antenna_data`) are modelled by their contents:
  the Python code stores a list of numpy slices per antenna and concatenates
  them in `calculate_aoa`; here each bin is the flattened list of samples, and
  appending a slice is list append.  Every slice the code appends is nonempty
  (guard `istart < iend`), so "some chunk list concatenates to the empty
  array" coincides with "the flattened bin is empty".
* The derived constants of `__init__` are taken as the configuration:
  `samples_per_antenna = int(sample_rate*dwell_time)`,
  `settling_samp = int(sample_rate*settling_time)`, and
  `rfx_gap_threshold = int(samples_per_antenna * 0.75)`, which for the integer
  inputs in range equals `3 * samples_per_antenna / 4` in natural division.
* The unbounded `while idx < n_items` loop of `work` is modelled with fuel
  returning `Option`; `2 * (buffer length) + 2` units are always sufficient
  under the documented precondition (proved below), and the degenerate
  configuration `samples_per_antenna = 0` genuinely loops forever (also
  proved below), so no fuel bound can be avoided.
-/

/-- A complex input sample, `(re, im)` with exact rational components. -/
abbrev Sample := ℚ × ℚ

/-- The configuration constants fixed by `switch_sync.__init__`. -/
structure Cfg where
  threshold : ℚ
  max_antennas : ℕ
  samples_per_antenna : ℕ
  settling_samp : ℕ
  offset_rad : ℝ

/-- Models `self.rfx_gap_threshold = int(self.samples_per_antenna * 0.75)`. -/
def Cfg.rfx_gap_threshold (cfg : Cfg) : ℕ :=
  3 * cfg.samples_per_antenna / 4

/-- Models `total_frame_size = self.samples_per_antenna * self.max_antennas` (recomputed
in `work`, constant). -/
def Cfg.frame_size (cfg : Cfg) : ℕ :=
  cfg.samples_per_antenna * cfg.max_antennas

/-- Models `self.antenna_angles[i] = i * (2*pi / max_antennas) + offset_rad`. -/
noncomputable def Cfg.antenna_angle (cfg : Cfg) (i : ℕ) : ℝ :=
  i * (2 * Real.pi / cfg.max_antennas) + cfg.offset_rad

/-- Models `power = iq.real**2 + iq.imag**2` (the vectorized power of one sample). -/
def power (s : Sample) : ℚ :=
  s.1 ^ 2 + s.2 ^ 2

/-- Models `numpy.abs` of a complex sample: `sqrt(re^2 + im^2)`. -/
noncomputable def cabs (s : Sample) : ℝ :=
  Real.sqrt ((s.1 : ℝ) ^ 2 + (s.2 : ℝ) ^ 2)

/-- Models `magnitude_sum = numpy.sum(numpy.abs(raw_arrays[i]))` for one antenna bin. -/
noncomputable def magnitude_sum (bin : List Sample) : ℝ :=
  (bin.map cabs).sum

/-- The embedding of a sample into `ℂ` (used to relate `cabs` to the complex
modulus in the statement of claim C3). -/
noncomputable def toC (s : Sample) : ℂ :=
  ⟨(s.1 : ℝ), (s.2 : ℝ)⟩

/-- Models `self.reset_arrays()`: one empty bin per antenna. -/
def emptyBins (cfg : Cfg) : List (List Sample) :=
  List.replicate cfg.max_antennas []

/-- Models `calculate_aoa`: abort (keeping the previous estimate) when some bin is
empty, otherwise the vector sum of per-antenna magnitude sums at the antenna
angles.  The held estimate `last` is passed explicitly: the Python method
mutates `self.lastAOA` only in the non-empty case. -/
noncomputable def calculate_aoa (cfg : Cfg) (data : List (List Sample)) (last : ℂ) : ℂ :=
  if data.any List.isEmpty then last
  else
    ⟨∑ i ∈ Finset.range cfg.max_antennas,
        magnitude_sum (data.getD i []) * Real.cos (cfg.antenna_angle i),
      ∑ i ∈ Finset.range cfg.max_antennas,
        magnitude_sum (data.getD i []) * Real.sin (cfg.antenna_angle i)⟩

/-- The state machine modes, `self.state ∈ {"SEARCH_RFX", "CAPTURE_FRAME"}`. -/
inductive SyncMode
  | SEARCH_RFX
  | CAPTURE_FRAME
  deriving DecidableEq

/-- The mutable state of one `switch_sync` block instance. -/
structure SyncState where
  state : SyncMode
  counter : ℕ
  total_sample_counter : ℕ
  antenna_data : List (List Sample)
  lastAOA : ℂ

/-- The state set up by `__init__`. -/
def initState (cfg : Cfg) : SyncState :=
  { state := SyncMode.SEARCH_RFX, counter := 0, total_sample_counter := 0, antenna_data := emptyBins cfg, lastAOA := 0 }

/-- The window start `w_start` of antenna `i`: `i * samples_per_antenna + settling_samp`. -/
def wStart (cfg : Cfg) (i : ℕ) : ℕ :=
  i * cfg.samples_per_antenna + cfg.settling_samp

/-- The window end `w_end` of antenna `i`: `(i + 1) * samples_per_antenna`. -/
def wEnd (cfg : Cfg) (i : ℕ) : ℕ :=
  (i + 1) * cfg.samples_per_antenna

/-- One iteration of the `for i in range(self.max_antennas)` distribution loop
of `work`, for antenna `i`: intersect the dwell window with the chunk placed
at frame position `p` and append the corresponding slice to the bin. -/
def binOne (cfg : Cfg) (p : ℕ) (chunk : List Sample) (i : ℕ) (bin : List Sample) :
    List Sample :=
  let istart := max p (wStart cfg i)
  let iend := min (p + chunk.length) (wEnd cfg i)
  if istart < iend then bin ++ (chunk.drop (istart - p)).take (iend - istart)
  else bin

/-- The distribution loop over the bins, carrying the antenna index; the bins
list always has length `max_antennas`, matching `range(self.max_antennas)`. -/
def binChunkAux (cfg : Cfg) (p : ℕ) (chunk : List Sample) :
    ℕ → List (List Sample) → List (List Sample)
  | _, [] => []
  | i, bin :: rest => binOne cfg p chunk i bin :: binChunkAux cfg p chunk (i + 1) rest

/-- Distribute a chunk starting at frame position `p` over all antenna bins. -/
def binChunk (cfg : Cfg) (p : ℕ) (chunk : List Sample) (data : List (List Sample)) :
    List (List Sample) :=
  binChunkAux cfg p chunk 0 data

/-- First index whose power is at or above the threshold: models
`numpy.flatnonzero(p_view >= self.threshold)[0]` (`none` when that array is
empty). -/
def firstHighIdx (th : ℚ) : List Sample → Option ℕ
  | [] => none
  | s :: rest => if th ≤ power s then some 0 else (firstHighIdx th rest).map (· + 1)

/-- The body of `work` as a fuel-indexed recursion over the unprocessed suffix
of the input buffer (`idx` is represented by dropping consumed samples). -/
noncomputable def workLoop (cfg : Cfg) : ℕ → SyncState → List Sample → Option SyncState
  | 0, _, _ => none
  | fuel + 1, st, l =>
    if l = [] then some st
    else
      match st.state with
      | SyncMode.SEARCH_RFX =>
        match firstHighIdx cfg.threshold l with
        | none => some { st with counter := st.counter + l.length }
        | some k =>
          if cfg.rfx_gap_threshold ≤ st.counter + k then
            workLoop cfg fuel
              { st with state := SyncMode.CAPTURE_FRAME, total_sample_counter := 0, antenna_data := emptyBins cfg, counter := 0 }
              (l.drop k)
          else
            workLoop cfg fuel { st with counter := 0 } (l.drop (k + 1))
      | SyncMode.CAPTURE_FRAME =>
        let n := min (cfg.frame_size - st.total_sample_counter) l.length
        let st' :=
          if 0 < n then
            { st with antenna_data := binChunk cfg st.total_sample_counter (l.take n) st.antenna_data, total_sample_counter := st.total_sample_counter + n }
          else st
        if cfg.frame_size ≤ st'.total_sample_counter then
          workLoop cfg fuel
            { st' with lastAOA := calculate_aoa cfg st'.antenna_data st'.lastAOA, state := SyncMode.SEARCH_RFX, counter := 0 }
            (l.drop n)
        else
          workLoop cfg fuel st' (l.drop n)

/-- The `work` entry point: the output buffer is filled with the estimate held
at call entry (`out[:] = self.lastAOA` precedes the loop), and the loop
advances the state.  `2 * length + 2` fuel always suffices under the
documented precondition (theorem `workLoop_eq_foldl` below). -/
noncomputable def work (cfg : Cfg) (st : SyncState) (l : List Sample) :
    Option SyncState × List ℂ :=
  (workLoop cfg (2 * l.length + 2) st l, List.replicate l.length st.lastAOA)

/-- Processing one sample in `CAPTURE_FRAME` (the chunked distribution of
`work` specialised to a single sample, followed by the frame-completion
check). -/
noncomputable def captureStep (cfg : Cfg) (st : SyncState) (s : Sample) : SyncState :=
  let st' : SyncState :=
    { st with antenna_data := binChunk cfg st.total_sample_counter [s] st.antenna_data, total_sample_counter := st.total_sample_counter + 1 }
  if cfg.frame_size ≤ st'.total_sample_counter then
    { st' with lastAOA := calculate_aoa cfg st'.antenna_data st'.lastAOA, state := SyncMode.SEARCH_RFX, counter := 0 }
  else st'

/-- The per-sample semantics of the `work` loop: the vectorized scanning and
chunking of `work` is proved equal to folding this step over the buffer
(`workLoop_eq_foldl`). -/
noncomputable def step1 (cfg : Cfg) (st : SyncState) (s : Sample) : SyncState :=
  match st.state with
  | SyncMode.CAPTURE_FRAME => captureStep cfg st s
  | SyncMode.SEARCH_RFX =>
    if power s < cfg.threshold then { st with counter := st.counter + 1 }
    else if cfg.rfx_gap_threshold ≤ st.counter then
      captureStep cfg
        { st with state := SyncMode.CAPTURE_FRAME, counter := 0, total_sample_counter := 0, antenna_data := emptyBins cfg } s
    else { st with counter := 0 }

/-- Reachability invariant: while capturing, the frame is not yet complete. -/
abbrev StInv (cfg : Cfg) (st : SyncState) : Prop :=
  st.state = SyncMode.CAPTURE_FRAME → st.total_sample_counter < cfg.frame_size

/-- Fuel needed for the next loop iteration beyond `2 * length`. -/
def modeBudget : SyncMode → ℕ
  | SyncMode.SEARCH_RFX => 2
  | SyncMode.CAPTURE_FRAME => 1

/-- Successive calls of the `work` entry point over a list of buffers. -/
noncomputable def runCalls (cfg : Cfg) : SyncState → List (List Sample) → Option SyncState
  | st, [] => some st
  | st, b :: bs =>
    match (work cfg st b).1 with
    | none => none
    | some st' => runCalls cfg st' bs

/-- The samples of a chunk placed at stream position `p` whose positions fall
in the half-open window `[ws, we)`, in arrival order (the specification's
description of one antenna's share of a chunk). -/
def windowSel (ws we : ℕ) : ℕ → List Sample → List Sample
  | _, [] => []
  | p, s :: rest => (if ws ≤ p ∧ p < we then [s] else []) ++ windowSel ws we (p + 1) rest

/-! ### Lemmas about the chunk-distribution (binning) code -/

theorem binOne_nil (cfg : Cfg) (p i : ℕ) (bin : List Sample) :
    binOne cfg p [] i bin = bin := by
  unfold binOne
  have h : ¬ max p (wStart cfg i) < min (p + List.length ([] : List Sample)) (wEnd cfg i) := by
    simp only [List.length_nil, Nat.add_zero]
    omega
  simp only [h, if_false]

theorem binOne_singleton (cfg : Cfg) (p i : ℕ) (a : Sample) (bin : List Sample) :
    binOne cfg p [a] i bin =
      if wStart cfg i ≤ p ∧ p < wEnd cfg i then bin ++ [a] else bin := by
  unfold binOne
  simp only [List.length_singleton]
  by_cases h : wStart cfg i ≤ p ∧ p < wEnd cfg i
  · have hmax : max p (wStart cfg i) = p := by omega
    have hmin : min (p + 1) (wEnd cfg i) = p + 1 := by omega
    have hlt : max p (wStart cfg i) < min (p + 1) (wEnd cfg i) := by omega
    rw [if_pos h, if_pos hlt, hmax, hmin, Nat.sub_self]
    have h1 : p + 1 - p = 1 := by omega
    rw [h1]
    simp
  · have hlt : ¬ max p (wStart cfg i) < min (p + 1) (wEnd cfg i) := by omega
    rw [if_neg h, if_neg hlt]

theorem binOne_cons (cfg : Cfg) (p i : ℕ) (a : Sample) (c : List Sample) (bin : List Sample) :
    binOne cfg p (a :: c) i bin = binOne cfg (p + 1) c i (binOne cfg p [a] i bin) := by
  rw [binOne_singleton]
  unfold binOne
  simp only [List.length_cons]
  have hiend : min (p + (c.length + 1)) (wEnd cfg i) = min (p + 1 + c.length) (wEnd cfg i) := by
    omega
  by_cases hA : wStart cfg i ≤ p ∧ p < wEnd cfg i
  · rw [if_pos hA]
    have hmax : max p (wStart cfg i) = p := by omega
    have hmax' : max (p + 1) (wStart cfg i) = p + 1 := by omega
    have hlt : max p (wStart cfg i) < min (p + (c.length + 1)) (wEnd cfg i) := by omega
    rw [if_pos hlt, hmax, hmax', Nat.sub_self, hiend]
    by_cases hB : p + 1 < min (p + 1 + c.length) (wEnd cfg i)
    · rw [if_pos hB]
      have h1 : min (p + 1 + c.length) (wEnd cfg i) - p = (min (p + 1 + c.length) (wEnd cfg i) - (p + 1)) + 1 := by
        omega
      rw [h1, Nat.sub_self]
      simp [List.append_assoc]
    · rw [if_neg hB]
      have h1 : min (p + 1 + c.length) (wEnd cfg i) - p = 1 := by omega
      rw [h1]
      simp
  · rw [if_neg hA]
    rcases Nat.lt_or_ge p (wStart cfg i) with hp | hp
    · have hmax : max p (wStart cfg i) = wStart cfg i := by omega
      have hmax' : max (p + 1) (wStart cfg i) = wStart cfg i := by omega
      rw [hmax, hmax', hiend]
      by_cases hG : wStart cfg i < min (p + 1 + c.length) (wEnd cfg i)
      · rw [if_pos hG, if_pos hG]
        have h1 : wStart cfg i - p = (wStart cfg i - (p + 1)) + 1 := by omega
        rw [h1]
        simp
      · rw [if_neg hG, if_neg hG]
    · have hwe : wEnd cfg i ≤ p := by omega
      have hG1 : ¬ max p (wStart cfg i) < min (p + (c.length + 1)) (wEnd cfg i) := by omega
      have hG2 : ¬ max (p + 1) (wStart cfg i) < min (p + 1 + c.length) (wEnd cfg i) := by omega
      rw [if_neg hG1, if_neg hG2]

theorem binChunkAux_nil_chunk (cfg : Cfg) (p i : ℕ) (data : List (List Sample)) :
    binChunkAux cfg p [] i data = data := by
  induction data generalizing i with
  | nil => rfl
  | cons bin rest ih => simp [binChunkAux, binOne_nil, ih]

theorem binChunkAux_cons (cfg : Cfg) (p i : ℕ) (a : Sample) (c : List Sample)
    (data : List (List Sample)) :
    binChunkAux cfg p (a :: c) i data =
      binChunkAux cfg (p + 1) c i (binChunkAux cfg p [a] i data) := by
  induction data generalizing i with
  | nil => rfl
  | cons bin rest ih =>
    simp only [binChunkAux]
    rw [binOne_cons, ih]

theorem binChunkAux_append (cfg : Cfg) (p i : ℕ) (c1 c2 : List Sample)
    (data : List (List Sample)) :
    binChunkAux cfg p (c1 ++ c2) i data =
      binChunkAux cfg (p + c1.length) c2 i (binChunkAux cfg p c1 i data) := by
  induction c1 generalizing p data with
  | nil => simp [binChunkAux_nil_chunk]
  | cons a c1 ih =>
    rw [List.cons_append, binChunkAux_cons, ih, binChunkAux_cons (c := c1)]
    have h : p + 1 + c1.length = p + (c1.length + 1) := by omega
    rw [h]
    rfl

theorem binChunkAux_length (cfg : Cfg) (p i : ℕ) (chunk : List Sample)
    (data : List (List Sample)) :
    (binChunkAux cfg p chunk i data).length = data.length := by
  induction data generalizing i with
  | nil => rfl
  | cons bin rest ih => simp [binChunkAux, ih]

theorem binChunkAux_getD (cfg : Cfg) (p i j : ℕ) (chunk : List Sample)
    (data : List (List Sample)) (h : j < data.length) :
    (binChunkAux cfg p chunk i data).getD j [] =
      binOne cfg p chunk (i + j) (data.getD j []) := by
  induction data generalizing i j with
  | nil => simp at h
  | cons bin rest ih =>
    cases j with
    | zero => simp [binChunkAux]
    | succ j =>
      simp only [binChunkAux, List.getD_cons_succ]
      rw [ih (i + 1) j (by simpa using Nat.lt_of_succ_lt_succ h)]
      have : i + 1 + j = i + (j + 1) := by omega
      rw [this]

theorem binOne_windowSel (cfg : Cfg) (i : ℕ) (chunk : List Sample) :
    ∀ p bin, binOne cfg p chunk i bin = bin ++ windowSel (wStart cfg i) (wEnd cfg i) p chunk := by
  induction chunk with
  | nil => intro p bin; simp [binOne_nil, windowSel]
  | cons a c ih =>
    intro p bin
    rw [binOne_cons, ih, binOne_singleton]
    simp only [windowSel]
    by_cases hA : wStart cfg i ≤ p ∧ p < wEnd cfg i
    · rw [if_pos hA, if_pos hA]
      simp [List.append_assoc]
    · rw [if_neg hA, if_neg hA]
      simp

theorem binChunk_nil_chunk (cfg : Cfg) (p : ℕ) (data : List (List Sample)) :
    binChunk cfg p [] data = data :=
  binChunkAux_nil_chunk cfg p 0 data

theorem binChunk_cons (cfg : Cfg) (p : ℕ) (a : Sample) (c : List Sample)
    (data : List (List Sample)) :
    binChunk cfg p (a :: c) data = binChunk cfg (p + 1) c (binChunk cfg p [a] data) :=
  binChunkAux_cons cfg p 0 a c data

theorem binChunk_append (cfg : Cfg) (p : ℕ) (c1 c2 : List Sample)
    (data : List (List Sample)) :
    binChunk cfg p (c1 ++ c2) data =
      binChunk cfg (p + c1.length) c2 (binChunk cfg p c1 data) :=
  binChunkAux_append cfg p 0 c1 c2 data

theorem binChunk_length (cfg : Cfg) (p : ℕ) (chunk : List Sample)
    (data : List (List Sample)) :
    (binChunk cfg p chunk data).length = data.length :=
  binChunkAux_length cfg p 0 chunk data

theorem binChunk_getD (cfg : Cfg) (p j : ℕ) (chunk : List Sample)
    (data : List (List Sample)) (h : j < data.length) :
    (binChunk cfg p chunk data).getD j [] =
      data.getD j [] ++ windowSel (wStart cfg j) (wEnd cfg j) p chunk := by
  rw [binChunk, binChunkAux_getD cfg p 0 j chunk data h, Nat.zero_add, binOne_windowSel]

/-! ### Lemmas about the rising-edge scan -/

theorem firstHighIdx_none (th : ℚ) (l : List Sample) (h : ∀ x ∈ l, power x < th) :
    firstHighIdx th l = none := by
  induction l with
  | nil => rfl
  | cons a rest ih =>
    have ha : ¬ th ≤ power a := not_le.mpr (h a (List.mem_cons_self a rest))
    simp only [firstHighIdx, if_neg ha]
    rw [ih fun x hx => h x (List.mem_cons_of_mem a hx)]
    rfl

theorem firstHighIdx_append (th : ℚ) (lows : List Sample) (hi : Sample)
    (rest : List Sample) (hlow : ∀ x ∈ lows, power x < th) (hhi : th ≤ power hi) :
    firstHighIdx th (lows ++ hi :: rest) = some lows.length := by
  induction lows with
  | nil => simp [firstHighIdx, if_pos hhi]
  | cons a lows ih =>
    have ha : ¬ th ≤ power a := not_le.mpr (hlow a (List.mem_cons_self a lows))
    simp only [List.cons_append, firstHighIdx, if_neg ha, List.append_eq]
    rw [ih fun x hx => hlow x (List.mem_cons_of_mem a hx)]
    rfl

theorem firstHighIdx_some (th : ℚ) (l : List Sample) (k : ℕ)
    (h : firstHighIdx th l = some k) :
    ∃ lows hi rest, l = lows ++ hi :: rest ∧ lows.length = k ∧
      (∀ x ∈ lows, power x < th) ∧ th ≤ power hi := by
  induction l generalizing k with
  | nil => simp [firstHighIdx] at h
  | cons a rest ih =>
    by_cases ha : th ≤ power a
    · refine ⟨[], a, rest, by simp, ?_, by simp, ha⟩
      simp only [firstHighIdx, if_pos ha, Option.some.injEq] at h
      simp [← h]
    · simp only [firstHighIdx, if_neg ha] at h
      cases hk : firstHighIdx th rest with
      | none => rw [hk] at h; simp at h
      | some k' =>
        rw [hk] at h
        simp only [Option.map_some', Option.some.injEq] at h
        obtain ⟨lows, hi, rest', heq, hlen, hlow, hhi⟩ := ih k' hk
        refine ⟨a :: lows, hi, rest', by rw [heq]; rfl, by simp [hlen, ← h], ?_, hhi⟩
        intro x hx
        rcases List.mem_cons.mp hx with hx | hx
        · exact hx ▸ not_le.mp ha
        · exact hlow x hx

/-! ### Per-sample characterisation of the loop -/

theorem step1_search_low (cfg : Cfg) (st : SyncState) (a : Sample)
    (hst : st.state = SyncMode.SEARCH_RFX) (ha : power a < cfg.threshold) :
    step1 cfg st a = { st with counter := st.counter + 1 } := by
  unfold step1
  rw [hst, if_pos ha]

theorem step1_search_high_sync (cfg : Cfg) (st : SyncState) (a : Sample)
    (hst : st.state = SyncMode.SEARCH_RFX) (ha : ¬ power a < cfg.threshold)
    (hg : cfg.rfx_gap_threshold ≤ st.counter) :
    step1 cfg st a = captureStep cfg
      { st with state := SyncMode.CAPTURE_FRAME, counter := 0, total_sample_counter := 0, antenna_data := emptyBins cfg } a := by
  unfold step1
  rw [hst, if_neg ha, if_pos hg]

theorem step1_search_high_glitch (cfg : Cfg) (st : SyncState) (a : Sample)
    (hst : st.state = SyncMode.SEARCH_RFX) (ha : ¬ power a < cfg.threshold)
    (hg : ¬ cfg.rfx_gap_threshold ≤ st.counter) :
    step1 cfg st a = { st with counter := 0 } := by
  unfold step1
  rw [hst, if_neg ha, if_neg hg]

theorem step1_capture (cfg : Cfg) (st : SyncState) (a : Sample)
    (hst : st.state = SyncMode.CAPTURE_FRAME) :
    step1 cfg st a = captureStep cfg st a := by
  unfold step1
  rw [hst]

theorem captureStep_state_of_not_complete (cfg : Cfg) (st : SyncState) (s : Sample)
    (h : ¬ cfg.frame_size ≤ st.total_sample_counter + 1) :
    captureStep cfg st s =
      { st with antenna_data := binChunk cfg st.total_sample_counter [s] st.antenna_data, total_sample_counter := st.total_sample_counter + 1 } := by
  unfold captureStep
  rw [if_neg h]

theorem captureStep_of_complete (cfg : Cfg) (st : SyncState) (s : Sample)
    (h : cfg.frame_size ≤ st.total_sample_counter + 1) :
    captureStep cfg st s =
      { st with
        antenna_data := binChunk cfg st.total_sample_counter [s] st.antenna_data,
        total_sample_counter := st.total_sample_counter + 1,
        lastAOA := calculate_aoa cfg (binChunk cfg st.total_sample_counter [s] st.antenna_data) st.lastAOA,
        state := SyncMode.SEARCH_RFX, counter := 0 } := by
  unfold captureStep
  rw [if_pos h]

theorem captureStep_state_inv (cfg : Cfg) (st : SyncState) (s : Sample) :
    StInv cfg (captureStep cfg st s) := by
  by_cases h : cfg.frame_size ≤ st.total_sample_counter + 1
  · rw [captureStep_of_complete cfg st s h]
    intro hst
    simp at hst
  · rw [captureStep_state_of_not_complete cfg st s h]
    intro _
    show st.total_sample_counter + 1 < cfg.frame_size
    omega

theorem step1_inv (cfg : Cfg) (st : SyncState) (s : Sample) (hinv : StInv cfg st) :
    StInv cfg (step1 cfg st s) := by
  unfold step1
  cases hst : st.state with
  | CAPTURE_FRAME => exact captureStep_state_inv cfg st s
  | SEARCH_RFX =>
    by_cases ha : power s < cfg.threshold
    · rw [if_pos ha]
      intro h
      simp at h
    · rw [if_neg ha]
      by_cases hg : cfg.rfx_gap_threshold ≤ st.counter
      · rw [if_pos hg]
        exact captureStep_state_inv cfg _ s
      · rw [if_neg hg]
        intro h
        simp at h

theorem foldl_inv (cfg : Cfg) (l : List Sample) :
    ∀ st : SyncState, StInv cfg st → StInv cfg (l.foldl (step1 cfg) st) := by
  induction l with
  | nil => intro st h; exact h
  | cons a rest ih =>
    intro st h
    exact ih (step1 cfg st a) (step1_inv cfg st a h)

theorem foldl_search_low (cfg : Cfg) (l : List Sample) :
    ∀ st : SyncState, st.state = SyncMode.SEARCH_RFX →
      (∀ x ∈ l, power x < cfg.threshold) →
      l.foldl (step1 cfg) st = { st with counter := st.counter + l.length } := by
  induction l with
  | nil => intro st _ _; simp
  | cons a rest ih =>
    intro st hst hlow
    have ha : power a < cfg.threshold := hlow a (List.mem_cons_self a rest)
    rw [List.foldl_cons, step1_search_low cfg st a hst ha,
      ih { st with counter := st.counter + 1 } (by exact hst)
        fun x hx => hlow x (List.mem_cons_of_mem a hx)]
    simp only [List.length_cons]
    congr 1
    omega

theorem foldl_capture (cfg : Cfg) (l : List Sample) :
    ∀ st : SyncState, st.state = SyncMode.CAPTURE_FRAME →
      st.total_sample_counter < cfg.frame_size →
      st.total_sample_counter + l.length ≤ cfg.frame_size →
      l.foldl (step1 cfg) st =
        if cfg.frame_size ≤ st.total_sample_counter + l.length then
          { st with
            antenna_data := binChunk cfg st.total_sample_counter l st.antenna_data,
            total_sample_counter := st.total_sample_counter + l.length,
            lastAOA := calculate_aoa cfg (binChunk cfg st.total_sample_counter l st.antenna_data) st.lastAOA,
            state := SyncMode.SEARCH_RFX, counter := 0 }
        else
          { st with
            antenna_data := binChunk cfg st.total_sample_counter l st.antenna_data,
            total_sample_counter := st.total_sample_counter + l.length } := by
  induction l with
  | nil =>
    intro st hst hlt hfit
    have hne : ¬ cfg.frame_size ≤ st.total_sample_counter + List.length ([] : List Sample) := by
      simp only [List.length_nil, Nat.add_zero]
      omega
    rw [List.foldl_nil, if_neg hne, binChunk_nil_chunk]
    cases st
    simp
  | cons a c ih =>
    intro st hst hlt hfit
    rw [List.foldl_cons, step1_capture cfg st a hst]
    by_cases hc : cfg.frame_size ≤ st.total_sample_counter + 1
    · have hc0 : c = [] := by
        simp only [List.length_cons] at hfit
        have hlen : c.length = 0 := by omega
        exact List.length_eq_zero.mp hlen
      subst hc0
      rw [captureStep_of_complete cfg st a hc, List.foldl_nil]
      have hpos : cfg.frame_size ≤ st.total_sample_counter + List.length [a] := by
        simp only [List.length_singleton]
        omega
      rw [if_pos hpos]
      simp only [List.length_singleton]
    · rw [captureStep_state_of_not_complete cfg st a hc]
      rw [ih { st with antenna_data := binChunk cfg st.total_sample_counter [a] st.antenna_data, total_sample_counter := st.total_sample_counter + 1 }
        (by exact hst)
        (by show st.total_sample_counter + 1 < cfg.frame_size; omega)
        (by show st.total_sample_counter + 1 + c.length ≤ cfg.frame_size
            simp only [List.length_cons] at hfit
            omega)]
      have hbc : binChunk cfg st.total_sample_counter (a :: c) st.antenna_data =
          binChunk cfg (st.total_sample_counter + 1) c
            (binChunk cfg st.total_sample_counter [a] st.antenna_data) :=
        binChunk_cons cfg st.total_sample_counter a c st.antenna_data
      rw [hbc]
      simp only [List.length_cons]
      have harith : st.total_sample_counter + (c.length + 1) = st.total_sample_counter + 1 + c.length := by
        omega
      rw [harith]

theorem firstHighIdx_none_inv (th : ℚ) (l : List Sample) (h : firstHighIdx th l = none) :
    ∀ x ∈ l, power x < th := by
  induction l with
  | nil => intro x hx; simp at hx
  | cons a rest ih =>
    intro x hx
    by_cases ha : th ≤ power a
    · simp [firstHighIdx, if_pos ha] at h
    · simp only [firstHighIdx, if_neg ha, Option.map_eq_none'] at h
      rcases List.mem_cons.mp hx with hx | hx
      · exact hx ▸ not_le.mp ha
      · exact ih h x hx

theorem workLoop_nil (cfg : Cfg) (f : ℕ) (st : SyncState) :
    workLoop cfg (f + 1) st [] = some st := by
  simp [workLoop]

theorem foldl_search_low_mk (cfg : Cfg) (l : List Sample) (cnt t : ℕ)
    (d : List (List Sample)) (la : ℂ) (hlow : ∀ x ∈ l, power x < cfg.threshold) :
    l.foldl (step1 cfg) ⟨SyncMode.SEARCH_RFX, cnt, t, d, la⟩ =
      ⟨SyncMode.SEARCH_RFX, cnt + l.length, t, d, la⟩ := by
  rw [foldl_search_low cfg l _ rfl hlow]

theorem step1_mk_search_sync (cfg : Cfg) (cnt t : ℕ) (d : List (List Sample)) (la : ℂ)
    (a : Sample) (ha : ¬ power a < cfg.threshold) (hg : cfg.rfx_gap_threshold ≤ cnt) :
    step1 cfg ⟨SyncMode.SEARCH_RFX, cnt, t, d, la⟩ a =
      captureStep cfg ⟨SyncMode.CAPTURE_FRAME, 0, 0, emptyBins cfg, la⟩ a := by
  rw [step1_search_high_sync cfg _ a rfl ha hg]

theorem step1_mk_search_glitch (cfg : Cfg) (cnt t : ℕ) (d : List (List Sample)) (la : ℂ)
    (a : Sample) (ha : ¬ power a < cfg.threshold) (hg : ¬ cfg.rfx_gap_threshold ≤ cnt) :
    step1 cfg ⟨SyncMode.SEARCH_RFX, cnt, t, d, la⟩ a = ⟨SyncMode.SEARCH_RFX, 0, t, d, la⟩ := by
  rw [step1_search_high_glitch cfg _ a rfl ha hg]

theorem step1_mk_capture (cfg : Cfg) (cnt t : ℕ) (d : List (List Sample)) (la : ℂ)
    (a : Sample) :
    step1 cfg ⟨SyncMode.CAPTURE_FRAME, cnt, t, d, la⟩ a =
      captureStep cfg ⟨SyncMode.CAPTURE_FRAME, cnt, t, d, la⟩ a := by
  rw [step1_capture cfg _ a rfl]

theorem foldl_capture_mk (cfg : Cfg) (l : List Sample) (cnt t : ℕ)
    (d : List (List Sample)) (la : ℂ) (hlt : t < cfg.frame_size)
    (hfit : t + l.length ≤ cfg.frame_size) :
    l.foldl (step1 cfg) ⟨SyncMode.CAPTURE_FRAME, cnt, t, d, la⟩ =
      if cfg.frame_size ≤ t + l.length then
        ⟨SyncMode.SEARCH_RFX, 0, t + l.length, binChunk cfg t l d,
          calculate_aoa cfg (binChunk cfg t l d) la⟩
      else ⟨SyncMode.CAPTURE_FRAME, cnt, t + l.length, binChunk cfg t l d, la⟩ := by
  rw [foldl_capture cfg l _ rfl hlt hfit]

/-- The vectorized buffer loop of `work` computes exactly the per-sample fold of
`step1`, given the reachability invariant and enough fuel. -/
theorem workLoop_eq_foldl (cfg : Cfg) (hfs : 1 ≤ cfg.frame_size) :
    ∀ fuel (st : SyncState) (l : List Sample), StInv cfg st →
      2 * l.length + modeBudget st.state ≤ fuel →
      workLoop cfg fuel st l = some (l.foldl (step1 cfg) st) := by
  intro fuel
  induction fuel with
  | zero =>
    intro st l _ hle
    exfalso
    cases h : st.state <;> rw [h] at hle <;> simp [modeBudget] at hle
  | succ f ih =>
    intro st l hinv hle
    by_cases hl : l = []
    · subst hl
      simp [workLoop]
    · obtain ⟨ms, cnt, t, d, la⟩ := st
      cases ms with
      | SEARCH_RFX =>
        simp only [modeBudget] at hle
        cases hfh : firstHighIdx cfg.threshold l with
        | none =>
          have hlow := firstHighIdx_none_inv cfg.threshold l hfh
          rw [foldl_search_low_mk cfg l cnt t d la hlow]
          simp only [workLoop, if_neg hl, hfh]
        | some k =>
          obtain ⟨lows, hi, rest, heq, hlen, hlows, hhi⟩ :=
            firstHighIdx_some cfg.threshold l k hfh
          subst heq
          subst hlen
          have hlenl : (lows ++ hi :: rest).length = lows.length + rest.length + 1 := by
            simp
            omega
          rw [List.foldl_append, foldl_search_low_mk cfg lows cnt t d la hlows,
            List.foldl_cons]
          have hdrop : (lows ++ hi :: rest).drop lows.length = hi :: rest :=
            List.drop_left lows (hi :: rest)
          have hdrop1 : (lows ++ hi :: rest).drop (lows.length + 1) = rest := by
            have h2 : lows ++ hi :: rest = (lows ++ [hi]) ++ rest := by simp
            have h3 : lows.length + 1 = (lows ++ [hi]).length := by simp
            rw [h2, h3, List.drop_left]
          simp only [workLoop, if_neg hl, hfh]
          by_cases hg : cfg.rfx_gap_threshold ≤ cnt + lows.length
          · rw [if_pos hg, hdrop,
              step1_mk_search_sync cfg (cnt + lows.length) t d la hi (not_lt.mpr hhi) hg,
              ← step1_mk_capture cfg 0 0 (emptyBins cfg) la hi, ← List.foldl_cons]
            exact ih ⟨SyncMode.CAPTURE_FRAME, 0, 0, emptyBins cfg, la⟩ (hi :: rest)
              (fun _ => hfs) (by simp only [List.length_cons, modeBudget]; omega)
          · rw [if_neg hg, hdrop1,
              step1_mk_search_glitch cfg (cnt + lows.length) t d la hi (not_lt.mpr hhi) hg]
            exact ih ⟨SyncMode.SEARCH_RFX, 0, t, d, la⟩ rest
              (fun h => SyncMode.noConfusion h) (by simp only [modeBudget]; omega)
      | CAPTURE_FRAME =>
        simp only [modeBudget] at hle
        have ht : t < cfg.frame_size := hinv rfl
        have hlp : 0 < l.length := List.length_pos.mpr hl
        have hn : 0 < min (cfg.frame_size - t) l.length := by omega
        have htake : (l.take (min (cfg.frame_size - t) l.length)).length =
            min (cfg.frame_size - t) l.length := by
          rw [List.length_take]
          omega
        have hsplit : List.foldl (step1 cfg) (⟨SyncMode.CAPTURE_FRAME, cnt, t, d, la⟩ : SyncState) l =
            List.foldl (step1 cfg)
              (List.foldl (step1 cfg) ⟨SyncMode.CAPTURE_FRAME, cnt, t, d, la⟩
                (l.take (min (cfg.frame_size - t) l.length)))
              (l.drop (min (cfg.frame_size - t) l.length)) := by
          rw [← List.foldl_append, List.take_append_drop]
        rw [hsplit,
          foldl_capture_mk cfg (l.take (min (cfg.frame_size - t) l.length)) cnt t d la ht
            (by rw [htake]; omega)]
        rw [htake]
        simp only [workLoop, if_neg hl, if_pos hn]
        by_cases hc : cfg.frame_size ≤ t + min (cfg.frame_size - t) l.length
        · simp only [if_pos hc]
          apply ih
          · exact fun h => SyncMode.noConfusion h
          · simp only [modeBudget, List.length_drop]
            omega
        · simp only [if_neg hc]
          have hnl : min (cfg.frame_size - t) l.length = l.length := by omega
          rw [hnl, List.drop_length, List.foldl_nil]
          obtain ⟨f', rfl⟩ : ∃ f', f = f' + 1 := ⟨f - 1, by omega⟩
          exact workLoop_nil cfg f' _

theorem frame_size_pos (cfg : Cfg) (h1 : 1 ≤ cfg.samples_per_antenna)
    (h2 : 1 ≤ cfg.max_antennas) : 1 ≤ cfg.frame_size := by
  unfold Cfg.frame_size
  exact Nat.mul_pos h1 h2

theorem work_fst_eq_foldl (cfg : Cfg) (hfs : 1 ≤ cfg.frame_size) (st : SyncState)
    (l : List Sample) (hinv : StInv cfg st) :
    (work cfg st l).1 = some (l.foldl (step1 cfg) st) := by
  unfold work
  exact workLoop_eq_foldl cfg hfs (2 * l.length + 2) st l hinv
    (by cases h : st.state <;> simp only [modeBudget] <;> omega)

/-- The degenerate configuration with `samples_per_antenna = 0`:
`frame_size = 0` and `rfx_gap_threshold = 0`, under which the `work` loop
cycles between syncing and completing an empty frame without consuming the
buffer. -/
def cfgDeg : Cfg :=
  { threshold := 1, max_antennas := 1, samples_per_antenna := 0, settling_samp := 0, offset_rad := 0 }

theorem workLoop_deg_none :
    ∀ fuel, workLoop cfgDeg fuel (initState cfgDeg) [((1 : ℚ), (0 : ℚ))] = none ∧
      workLoop cfgDeg fuel
        ⟨SyncMode.CAPTURE_FRAME, 0, 0, emptyBins cfgDeg, 0⟩ [((1 : ℚ), (0 : ℚ))] = none := by
  intro fuel
  induction fuel with
  | zero => exact ⟨rfl, rfl⟩
  | succ f ih =>
    have hfh : firstHighIdx cfgDeg.threshold [((1 : ℚ), (0 : ℚ))] = some 0 := by
      norm_num [firstHighIdx, power, cfgDeg]
    constructor
    · simp only [workLoop, initState, hfh]
      have hgap : cfgDeg.rfx_gap_threshold ≤ 0 + 0 := by
        norm_num [Cfg.rfx_gap_threshold, cfgDeg]
      rw [if_neg (by simp : ¬([((1 : ℚ), (0 : ℚ))] = [])), if_pos hgap]
      simpa using ih.2
    · simp only [workLoop]
      have hn : min (cfgDeg.frame_size - 0) (List.length [((1 : ℚ), (0 : ℚ))]) = 0 := by
        norm_num [Cfg.frame_size, cfgDeg]
      have hfs0 : cfgDeg.frame_size ≤ 0 := by
        norm_num [Cfg.frame_size, cfgDeg]
      have hcalc : calculate_aoa cfgDeg (emptyBins cfgDeg) 0 = 0 := by
        simp [calculate_aoa, emptyBins, cfgDeg]
      rw [if_neg (by simp : ¬([((1 : ℚ), (0 : ℚ))] = []))]
      simp only [hn, Nat.lt_irrefl, if_false]
      rw [if_pos hfs0, hcalc]
      simpa [initState] using ih.1

/-! ### One-iteration characterisation of the search scan -/

theorem workLoop_search_all_low (cfg : Cfg) (f : ℕ) (st : SyncState) (l : List Sample)
    (hst : st.state = SyncMode.SEARCH_RFX) (hlow : ∀ x ∈ l, power x < cfg.threshold) :
    workLoop cfg (f + 1) st l = some { st with counter := st.counter + l.length } := by
  by_cases hl : l = []
  · subst hl
    rw [workLoop_nil]
    cases st
    simp
  · obtain ⟨ms, cnt, t, d, la⟩ := st
    cases ms with
    | CAPTURE_FRAME => simp at hst
    | SEARCH_RFX =>
      have hnone := firstHighIdx_none cfg.threshold l hlow
      simp only [workLoop, if_neg hl, hnone]

theorem workLoop_search_found (cfg : Cfg) (f : ℕ) (st : SyncState)
    (lows : List Sample) (hi : Sample) (rest : List Sample)
    (hst : st.state = SyncMode.SEARCH_RFX)
    (hlow : ∀ x ∈ lows, power x < cfg.threshold) (hhi : cfg.threshold ≤ power hi) :
    workLoop cfg (f + 1) st (lows ++ hi :: rest) =
      if cfg.rfx_gap_threshold ≤ st.counter + lows.length then
        workLoop cfg f
          { st with state := SyncMode.CAPTURE_FRAME, counter := 0, total_sample_counter := 0, antenna_data := emptyBins cfg }
          (hi :: rest)
      else
        workLoop cfg f { st with counter := 0 } rest := by
  obtain ⟨ms, cnt, t, d, la⟩ := st
  cases ms with
  | CAPTURE_FRAME => simp at hst
  | SEARCH_RFX =>
    have hfh := firstHighIdx_append cfg.threshold lows hi rest hlow hhi
    have hl : ¬ (lows ++ hi :: rest = []) := by simp
    have hdrop : (lows ++ hi :: rest).drop lows.length = hi :: rest :=
      List.drop_left lows (hi :: rest)
    have hdrop1 : (lows ++ hi :: rest).drop (lows.length + 1) = rest := by
      have h2 : lows ++ hi :: rest = (lows ++ [hi]) ++ rest := by simp
      have h3 : lows.length + 1 = (lows ++ [hi]).length := by simp
      rw [h2, h3, List.drop_left]
    simp only [workLoop, if_neg hl, hfh, hdrop, hdrop1]

/-! ### A concrete run: one silence gap, one captured frame, then silence -/

def cfgA : Cfg :=
  { threshold := 1, max_antennas := 1, samples_per_antenna := 2, settling_samp := 0, offset_rad := 0 }

def inputA : List Sample := [(0, 0), (1, 0), (1, 0), (0, 0)]

theorem calcA_eval :
    calculate_aoa cfgA [[((1 : ℚ), (0 : ℚ)), ((1 : ℚ), (0 : ℚ))]] 0 = 2 := by
  rw [calculate_aoa, if_neg (by decide)]
  have hma : cfgA.max_antennas = 1 := rfl
  rw [hma]
  simp only [Finset.sum_range_one, List.getD_cons_zero]
  simp only [magnitude_sum, cabs, Cfg.antenna_angle, cfgA, List.map_cons, List.map_nil,
    List.sum_cons, List.sum_nil, Nat.cast_zero, zero_mul, add_zero, zero_add,
    Real.cos_zero, Real.sin_zero]
  norm_num [Complex.ext_iff]

theorem stepA0 :
    step1 cfgA (initState cfgA) ((0 : ℚ), (0 : ℚ)) =
      ⟨SyncMode.SEARCH_RFX, 1, 0, [[]], 0⟩ := by
  rw [step1_search_low cfgA (initState cfgA) ((0 : ℚ), (0 : ℚ)) rfl (by norm_num [power, cfgA])]
  rfl

theorem stepA1 :
    step1 cfgA ⟨SyncMode.SEARCH_RFX, 1, 0, [[]], 0⟩ ((1 : ℚ), (0 : ℚ)) =
      ⟨SyncMode.CAPTURE_FRAME, 0, 1, [[((1 : ℚ), (0 : ℚ))]], 0⟩ := by
  rw [step1_mk_search_sync cfgA 1 0 [[]] 0 ((1 : ℚ), (0 : ℚ)) (by norm_num [power, cfgA])
      (by norm_num [Cfg.rfx_gap_threshold, cfgA]),
    captureStep_state_of_not_complete cfgA _ _ (by norm_num [Cfg.frame_size, cfgA])]
  rfl

theorem stepA2 :
    step1 cfgA ⟨SyncMode.CAPTURE_FRAME, 0, 1, [[((1 : ℚ), (0 : ℚ))]], 0⟩ ((1 : ℚ), (0 : ℚ)) =
      ⟨SyncMode.SEARCH_RFX, 0, 2, [[((1 : ℚ), (0 : ℚ)), ((1 : ℚ), (0 : ℚ))]],
        calculate_aoa cfgA [[((1 : ℚ), (0 : ℚ)), ((1 : ℚ), (0 : ℚ))]] 0⟩ := by
  rw [step1_mk_capture cfgA 0 1 [[((1 : ℚ), (0 : ℚ))]] 0 ((1 : ℚ), (0 : ℚ)),
    captureStep_of_complete cfgA _ _ (by norm_num [Cfg.frame_size, cfgA])]
  rfl

theorem stepA3 (c : ℂ) (d : List (List Sample)) :
    step1 cfgA ⟨SyncMode.SEARCH_RFX, 0, 2, d, c⟩ ((0 : ℚ), (0 : ℚ)) =
      ⟨SyncMode.SEARCH_RFX, 1, 2, d, c⟩ := by
  rw [step1_search_low cfgA _ ((0 : ℚ), (0 : ℚ)) rfl (by norm_num [power, cfgA])]

theorem foldA :
    List.foldl (step1 cfgA) (initState cfgA) inputA =
      ⟨SyncMode.SEARCH_RFX, 1, 2, [[((1 : ℚ), (0 : ℚ)), ((1 : ℚ), (0 : ℚ))]],
        calculate_aoa cfgA [[((1 : ℚ), (0 : ℚ)), ((1 : ℚ), (0 : ℚ))]] 0⟩ := by
  show List.foldl (step1 cfgA) (initState cfgA)
      [((0 : ℚ), (0 : ℚ)), ((1 : ℚ), (0 : ℚ)), ((1 : ℚ), (0 : ℚ)), ((0 : ℚ), (0 : ℚ))] = _
  rw [List.foldl_cons, stepA0, List.foldl_cons, stepA1, List.foldl_cons, stepA2,
    List.foldl_cons, stepA3, List.foldl_nil]

/-! ### Claim theorems -/

/-- Claim C1: in `SEARCH_RFX`, at the first sample at or above the threshold,
synchronisation is declared exactly when the accumulated run of consecutive
below-threshold samples (the carried counter plus the scanned prefix) is at
least `rfx_gap_threshold`; on synchronisation the state becomes
`CAPTURE_FRAME`, all antenna bins are cleared, the frame-position counter is
reset to zero, and the rising-edge sample is the first sample processed under
the new state (hence antenna 0's first sample); in particular a run of
`rfx_gap_threshold - 1` never synchronises and a run of `rfx_gap_threshold`
always does. -/
theorem claim_C1 (cfg : Cfg) (st : SyncState) (lows : List Sample) (hi : Sample)
    (rest : List Sample) (f : ℕ) (hst : st.state = SyncMode.SEARCH_RFX)
    (hlow : ∀ x ∈ lows, power x < cfg.threshold) (hhi : cfg.threshold ≤ power hi) :
    workLoop cfg (f + 1) st (lows ++ hi :: rest) =
      if cfg.rfx_gap_threshold ≤ st.counter + lows.length then
        workLoop cfg f
          { st with state := SyncMode.CAPTURE_FRAME, counter := 0, total_sample_counter := 0, antenna_data := emptyBins cfg }
          (hi :: rest)
      else
        workLoop cfg f { st with counter := 0 } rest :=
  workLoop_search_found cfg f st lows hi rest hst hlow hhi

def cfgB : Cfg :=
  { threshold := 1, max_antennas := 1, samples_per_antenna := 4, settling_samp := 0, offset_rad := 0 }

/-- Witness for C1: `cfgB` has `rfx_gap_threshold = 3`; a run of exactly three
silent samples followed by a rising edge synchronises. -/
theorem claim_C1_witness :
    (initState cfgB).state = SyncMode.SEARCH_RFX ∧
    (∀ x ∈ [((0:ℚ),(0:ℚ)), ((0:ℚ),(0:ℚ)), ((0:ℚ),(0:ℚ))], power x < cfgB.threshold) ∧
    cfgB.threshold ≤ power ((1:ℚ),(0:ℚ)) ∧
    (workLoop cfgB 6 (initState cfgB)
        ([((0:ℚ),(0:ℚ)), ((0:ℚ),(0:ℚ)), ((0:ℚ),(0:ℚ))] ++ ((1:ℚ),(0:ℚ)) :: []) =
      if cfgB.rfx_gap_threshold ≤
          (initState cfgB).counter + [((0:ℚ),(0:ℚ)), ((0:ℚ),(0:ℚ)), ((0:ℚ),(0:ℚ))].length then
        workLoop cfgB 5
          { initState cfgB with state := SyncMode.CAPTURE_FRAME, counter := 0, total_sample_counter := 0, antenna_data := emptyBins cfgB }
          (((1:ℚ),(0:ℚ)) :: [])
      else
        workLoop cfgB 5 { initState cfgB with counter := 0 } []) :=
  ⟨rfl, by simp [power, cfgB], by simp [power, cfgB],
    claim_C1 cfgB (initState cfgB) [((0:ℚ),(0:ℚ)), ((0:ℚ),(0:ℚ)), ((0:ℚ),(0:ℚ))]
      ((1:ℚ),(0:ℚ)) [] 5 rfl (by simp [power, cfgB]) (by simp [power, cfgB])⟩

/-- Claim C7: in `SEARCH_RFX`, a rising edge whose accumulated silent run is
too short resets the silence counter to zero and scanning resumes at the
sample immediately after the edge; and a buffer suffix with no sample at or
above the threshold adds exactly its length to the silence counter and leaves
the state `SEARCH_RFX`. -/
theorem claim_C7 (cfg : Cfg) (st : SyncState) (l lows rest : List Sample) (hi : Sample)
    (f : ℕ) (hst : st.state = SyncMode.SEARCH_RFX) :
    ((∀ x ∈ l, power x < cfg.threshold) →
      workLoop cfg (f + 1) st l = some { st with counter := st.counter + l.length }) ∧
    ((∀ x ∈ lows, power x < cfg.threshold) → cfg.threshold ≤ power hi →
      st.counter + lows.length < cfg.rfx_gap_threshold →
      workLoop cfg (f + 1) st (lows ++ hi :: rest) =
        workLoop cfg f { st with counter := 0 } rest) := by
  constructor
  · intro hlow
    exact workLoop_search_all_low cfg f st l hst hlow
  · intro hlow hhi hlt
    rw [workLoop_search_found cfg f st lows hi rest hst hlow hhi,
      if_neg (not_le.mpr hlt)]

/-- Witness for C7: an all-silent buffer accumulates its length; an immediate
rising edge with an empty accumulated gap (`0 < 3`) is a transient dip. -/
theorem claim_C7_witness :
    (initState cfgB).state = SyncMode.SEARCH_RFX ∧
    (((∀ x ∈ [((0:ℚ),(0:ℚ)), ((0:ℚ),(0:ℚ))], power x < cfgB.threshold) →
      workLoop cfgB 5 (initState cfgB) [((0:ℚ),(0:ℚ)), ((0:ℚ),(0:ℚ))] =
        some { initState cfgB with
          counter := (initState cfgB).counter + [((0:ℚ),(0:ℚ)), ((0:ℚ),(0:ℚ))].length }) ∧
    ((∀ x ∈ ([] : List Sample), power x < cfgB.threshold) →
      cfgB.threshold ≤ power ((1:ℚ),(0:ℚ)) →
      (initState cfgB).counter + ([] : List Sample).length < cfgB.rfx_gap_threshold →
      workLoop cfgB 5 (initState cfgB) (([] : List Sample) ++ ((1:ℚ),(0:ℚ)) :: [((0:ℚ),(0:ℚ))]) =
        workLoop cfgB 4 { initState cfgB with counter := 0 } [((0:ℚ),(0:ℚ))])) :=
  ⟨rfl, claim_C7 cfgB (initState cfgB) [((0:ℚ),(0:ℚ)), ((0:ℚ),(0:ℚ))] []
    [((0:ℚ),(0:ℚ))] ((1:ℚ),(0:ℚ)) 4 rfl⟩

/-- Claim C4: the chunk-distribution step appends to antenna `i` exactly the
samples whose frame-relative positions lie in
`[i*samples_per_antenna + settling_samp, (i+1)*samples_per_antenna)`, in
arrival order after the existing bin contents; and a chunk split at any
boundary distributes identically to the unsplit chunk (straddling windows is
handled by position, not by chunk boundaries). -/
theorem claim_C4 (cfg : Cfg) (p : ℕ) (chunk : List Sample) (data : List (List Sample))
    (i : ℕ) (h : i < data.length) :
    (binChunk cfg p chunk data).getD i [] =
      data.getD i [] ++ windowSel (wStart cfg i) (wEnd cfg i) p chunk ∧
    ∀ c1 c2 : List Sample,
      binChunk cfg p (c1 ++ c2) data =
        binChunk cfg (p + c1.length) c2 (binChunk cfg p c1 data) :=
  ⟨binChunk_getD cfg p i chunk data h, fun c1 c2 => binChunk_append cfg p c1 c2 data⟩

def cfgS : Cfg :=
  { threshold := 1, max_antennas := 2, samples_per_antenna := 3, settling_samp := 1, offset_rad := 0 }

def chunk6 : List Sample := [(1,0), (2,0), (3,0), (4,0), (5,0), (6,0)]

/-- Witness for C4 on a full two-antenna frame with one settling sample per
window. -/
theorem claim_C4_witness :
    0 < ([[],[]] : List (List Sample)).length ∧
    ((binChunk cfgS 0 chunk6 [[],[]]).getD 0 [] =
      ([[],[]] : List (List Sample)).getD 0 [] ++
        windowSel (wStart cfgS 0) (wEnd cfgS 0) 0 chunk6 ∧
    ∀ c1 c2 : List Sample,
      binChunk cfgS 0 (c1 ++ c2) [[],[]] =
        binChunk cfgS (0 + c1.length) c2 (binChunk cfgS 0 c1 [[],[]])) :=
  ⟨by decide, claim_C4 cfgS 0 chunk6 [[],[]] 0 (by decide)⟩

/-- Claim C5: an empty antenna bin at frame completion is recoverable: the
estimator returns the held estimate unchanged, and the completion step keeps
`lastAOA`, returns to `SEARCH_RFX` and clears the silence counter, so
scanning resumes for the next cycle (the model is a total function: nothing
aborts the streaming path). -/
theorem claim_C5 (cfg : Cfg) (data : List (List Sample)) (last : ℂ) (st : SyncState)
    (s : Sample) (hempty : data.any List.isEmpty = true)
    (hst : st.state = SyncMode.CAPTURE_FRAME)
    (hcomp : cfg.frame_size ≤ st.total_sample_counter + 1)
    (hbins : (binChunk cfg st.total_sample_counter [s] st.antenna_data).any List.isEmpty = true) :
    calculate_aoa cfg data last = last ∧
    (step1 cfg st s).lastAOA = st.lastAOA ∧
    (step1 cfg st s).state = SyncMode.SEARCH_RFX ∧
    (step1 cfg st s).counter = 0 := by
  have hstep : step1 cfg st s =
      { st with
        antenna_data := binChunk cfg st.total_sample_counter [s] st.antenna_data,
        total_sample_counter := st.total_sample_counter + 1,
        lastAOA := calculate_aoa cfg (binChunk cfg st.total_sample_counter [s] st.antenna_data) st.lastAOA,
        state := SyncMode.SEARCH_RFX, counter := 0 } := by
    rw [step1_capture cfg st s hst, captureStep_of_complete cfg st s hcomp]
  have hkeep : calculate_aoa cfg (binChunk cfg st.total_sample_counter [s] st.antenna_data)
      st.lastAOA = st.lastAOA := by
    rw [calculate_aoa, if_pos hbins]
  refine ⟨by rw [calculate_aoa, if_pos hempty], ?_, ?_, ?_⟩ <;> rw [hstep] <;> simp [hkeep]

def cfgE : Cfg :=
  { threshold := 1, max_antennas := 2, samples_per_antenna := 1, settling_samp := 1, offset_rad := 0 }

/-- Witness for C5: with `settling_samp = samples_per_antenna` every dwell
window is fully excluded, so the frame completes with both bins empty and the
estimate is retained. -/
theorem claim_C5_witness :
    (([[],[]] : List (List Sample)).any List.isEmpty = true) ∧
    ((⟨SyncMode.CAPTURE_FRAME, 0, 1, [[],[]], 0⟩ : SyncState).state = SyncMode.CAPTURE_FRAME) ∧
    (cfgE.frame_size ≤ (⟨SyncMode.CAPTURE_FRAME, 0, 1, [[],[]], 0⟩ : SyncState).total_sample_counter + 1) ∧
    ((binChunk cfgE (⟨SyncMode.CAPTURE_FRAME, 0, 1, [[],[]], 0⟩ : SyncState).total_sample_counter
        [((1:ℚ),(0:ℚ))] (⟨SyncMode.CAPTURE_FRAME, 0, 1, [[],[]], 0⟩ : SyncState).antenna_data).any List.isEmpty = true) ∧
    (calculate_aoa cfgE [[],[]] 0 = 0 ∧
      (step1 cfgE ⟨SyncMode.CAPTURE_FRAME, 0, 1, [[],[]], 0⟩ ((1:ℚ),(0:ℚ))).lastAOA =
        (⟨SyncMode.CAPTURE_FRAME, 0, 1, [[],[]], 0⟩ : SyncState).lastAOA ∧
      (step1 cfgE ⟨SyncMode.CAPTURE_FRAME, 0, 1, [[],[]], 0⟩ ((1:ℚ),(0:ℚ))).state = SyncMode.SEARCH_RFX ∧
      (step1 cfgE ⟨SyncMode.CAPTURE_FRAME, 0, 1, [[],[]], 0⟩ ((1:ℚ),(0:ℚ))).counter = 0) :=
  ⟨by decide, rfl, by decide, by decide,
    claim_C5 cfgE [[],[]] 0 ⟨SyncMode.CAPTURE_FRAME, 0, 1, [[],[]], 0⟩ ((1:ℚ),(0:ℚ))
      (by decide) rfl (by decide) (by decide)⟩

def cfgW : Cfg :=
  { threshold := 1, max_antennas := 1, samples_per_antenna := 1, settling_samp := 0, offset_rad := 0 }

theorem captureStep_lastAOA (cfg : Cfg) (st : SyncState) (s : Sample) :
    (captureStep cfg st s).lastAOA = st.lastAOA ∨
    ((captureStep cfg st s).lastAOA =
        calculate_aoa cfg ((captureStep cfg st s).antenna_data) st.lastAOA ∧
      (captureStep cfg st s).state = SyncMode.SEARCH_RFX ∧
      cfg.frame_size ≤ (captureStep cfg st s).total_sample_counter) := by
  by_cases h : cfg.frame_size ≤ st.total_sample_counter + 1
  · right
    rw [captureStep_of_complete cfg st s h]
    exact ⟨rfl, rfl, h⟩
  · left
    rw [captureStep_state_of_not_complete cfg st s h]

theorem step1_lastAOA (cfg : Cfg) (st : SyncState) (s : Sample) :
    (step1 cfg st s).lastAOA = st.lastAOA ∨
    ((step1 cfg st s).lastAOA =
        calculate_aoa cfg ((step1 cfg st s).antenna_data) st.lastAOA ∧
      (step1 cfg st s).state = SyncMode.SEARCH_RFX ∧
      cfg.frame_size ≤ (step1 cfg st s).total_sample_counter) := by
  obtain ⟨ms, cnt, t, d, la⟩ := st
  cases ms with
  | CAPTURE_FRAME =>
    rw [step1_mk_capture]
    exact captureStep_lastAOA cfg ⟨SyncMode.CAPTURE_FRAME, cnt, t, d, la⟩ s
  | SEARCH_RFX =>
    by_cases ha : power s < cfg.threshold
    · left
      rw [step1_search_low cfg _ s rfl ha]
    · by_cases hg : cfg.rfx_gap_threshold ≤ cnt
      · rw [step1_mk_search_sync cfg cnt t d la s ha hg]
        exact captureStep_lastAOA cfg ⟨SyncMode.CAPTURE_FRAME, 0, 0, emptyBins cfg, la⟩ s
      · left
        rw [step1_mk_search_glitch cfg cnt t d la s ha hg]

/-- Claim C10: at construction the held AOA estimate is the complex zero;
every call made while the held estimate is still zero outputs a buffer of
zeros of the input's length; and a processing step changes the held estimate
only by invoking the estimator at a frame completion (which an empty bin
turns into the identity): before the first successful frame completion the
output stream is identically `0 + 0j`. -/
theorem claim_C10 (cfg : Cfg) (st : SyncState) (l : List Sample) (h : st.lastAOA = 0) :
    (initState cfg).lastAOA = 0 ∧
    (work cfg st l).2 = List.replicate l.length 0 ∧
    (∀ (st' : SyncState) (s : Sample), (step1 cfg st' s).lastAOA = st'.lastAOA ∨
      ((step1 cfg st' s).lastAOA =
          calculate_aoa cfg ((step1 cfg st' s).antenna_data) st'.lastAOA ∧
        (step1 cfg st' s).state = SyncMode.SEARCH_RFX ∧
        cfg.frame_size ≤ (step1 cfg st' s).total_sample_counter)) := by
  refine ⟨rfl, ?_, fun st' s => step1_lastAOA cfg st' s⟩
  simp [work, h]

/-- Witness for C10 on a one-sample call from the freshly constructed state. -/
theorem claim_C10_witness :
    (initState cfgW).lastAOA = 0 ∧
    ((initState cfgW).lastAOA = 0 ∧
      (work cfgW (initState cfgW) [((1:ℚ),(0:ℚ))]).2 =
        List.replicate [((1:ℚ),(0:ℚ))].length 0 ∧
      (∀ (st' : SyncState) (s : Sample), (step1 cfgW st' s).lastAOA = st'.lastAOA ∨
        ((step1 cfgW st' s).lastAOA =
            calculate_aoa cfgW ((step1 cfgW st' s).antenna_data) st'.lastAOA ∧
          (step1 cfgW st' s).state = SyncMode.SEARCH_RFX ∧
          cfgW.frame_size ≤ (step1 cfgW st' s).total_sample_counter))) :=
  ⟨rfl, claim_C10 cfgW (initState cfgW) [((1:ℚ),(0:ℚ))] rfl⟩

/-- Claim C2: chunking invariance: processing a sequence of buffers through
successive calls of the entry point reaches exactly the state (including the
held AOA estimate, silence counter, frame counter and bin contents) reached
by one call on the concatenated buffer. -/
theorem claim_C2 (cfg : Cfg) (h1 : 1 ≤ cfg.samples_per_antenna)
    (h2 : 1 ≤ cfg.max_antennas) (st : SyncState) (hinv : StInv cfg st)
    (bufs : List (List Sample)) :
    runCalls cfg st bufs = (work cfg st bufs.flatten).1 := by
  induction bufs generalizing st with
  | nil => exact (workLoop_nil cfg 1 st).symm
  | cons b bs ih =>
    have hfs := frame_size_pos cfg h1 h2
    have hb := work_fst_eq_foldl cfg hfs st b hinv
    simp only [runCalls, hb]
    rw [ih (List.foldl (step1 cfg) st b) (foldl_inv cfg b st hinv)]
    rw [List.flatten_cons,
      work_fst_eq_foldl cfg hfs st (b ++ bs.flatten) hinv,
      work_fst_eq_foldl cfg hfs (List.foldl (step1 cfg) st b) bs.flatten
        (foldl_inv cfg b st hinv),
      List.foldl_append]

/-- Witness for C2 with two single-sample buffers. -/
theorem claim_C2_witness :
    1 ≤ cfgW.samples_per_antenna ∧ 1 ≤ cfgW.max_antennas ∧
    StInv cfgW (initState cfgW) ∧
    runCalls cfgW (initState cfgW) [[((0:ℚ),(0:ℚ))], [((1:ℚ),(0:ℚ))]] =
      (work cfgW (initState cfgW) [[((0:ℚ),(0:ℚ))], [((1:ℚ),(0:ℚ))]].flatten).1 :=
  ⟨by decide, by decide, fun h => absurd h (by decide),
    claim_C2 cfgW (by decide) (by decide) (initState cfgW)
      (fun h => absurd h (by decide)) [[((0:ℚ),(0:ℚ))], [((1:ℚ),(0:ℚ))]]⟩

/-- Claim C9: with `samples_per_antenna ≥ 1` and `max_antennas ≥ 1` the
buffer loop of the entry point terminates on every finite buffer from every
reachable state (the canonical fuel `2*length + 2` returns `some`); in the
degenerate configuration `cfgDeg` (`samples_per_antenna = 0`, so
`frame_size = 0` and `rfx_gap_threshold = 0`) the loop never terminates on a
single above-threshold sample: every fuel is exhausted. -/
theorem claim_C9 (cfg : Cfg) (h1 : 1 ≤ cfg.samples_per_antenna)
    (h2 : 1 ≤ cfg.max_antennas) (st : SyncState) (l : List Sample)
    (hinv : StInv cfg st) :
    ((work cfg st l).1).isSome = true ∧
    ∀ fuel, workLoop cfgDeg fuel (initState cfgDeg) [((1:ℚ),(0:ℚ))] = none := by
  constructor
  · rw [work_fst_eq_foldl cfg (frame_size_pos cfg h1 h2) st l hinv]
    rfl
  · intro fuel
    exact (workLoop_deg_none fuel).1

/-- Witness for C9. -/
theorem claim_C9_witness :
    1 ≤ cfgW.samples_per_antenna ∧ 1 ≤ cfgW.max_antennas ∧
    StInv cfgW (initState cfgW) ∧
    (((work cfgW (initState cfgW) [((1:ℚ),(0:ℚ))]).1).isSome = true ∧
      ∀ fuel, workLoop cfgDeg fuel (initState cfgDeg) [((1:ℚ),(0:ℚ))] = none) :=
  ⟨by decide, by decide, fun h => absurd h (by decide),
    claim_C9 cfgW (by decide) (by decide) (initState cfgW) [((1:ℚ),(0:ℚ))]
      (fun h => absurd h (by decide))⟩

theorem cabs_eq_abs_toC (s : Sample) : cabs s = Complex.abs (toC s) := by
  rw [cabs, toC, Complex.abs_apply, Complex.normSq_mk]
  congr 1
  ring

theorem magnitude_sum_eq_abs (bin : List Sample) :
    magnitude_sum bin = (bin.map (fun s => Complex.abs (toC s))).sum := by
  induction bin with
  | nil => rfl
  | cons a r ih =>
    simp only [magnitude_sum, List.map_cons, List.sum_cons] at ih ⊢
    rw [ih, cabs_eq_abs_toC]

theorem any_isEmpty_false_of_ne (data : List (List Sample))
    (hne : ∀ b ∈ data, b ≠ ([] : List Sample)) : data.any List.isEmpty = false := by
  rw [List.any_eq_false]
  intro b hb
  simpa [List.isEmpty_iff] using hne b hb

/-- Claim C3: on a complete frame with all bins non-empty, the estimate is the
2-D vector whose components are the per-antenna sums of sample moduli
(magnitude, not power) weighted by the cosine and sine of the fixed antenna
angles `i * (2π/max_antennas) + offset`; in particular with four antennas at
angles 0°, 90°, 180°, 270° and equal magnitude sums `M` the vector is
`(0, 0)`. -/
theorem claim_C3 (cfg : Cfg) (data : List (List Sample)) (last : ℂ)
    (hlen : data.length = cfg.max_antennas)
    (hne : ∀ b ∈ data, b ≠ ([] : List Sample)) :
    calculate_aoa cfg data last =
      ⟨∑ i ∈ Finset.range cfg.max_antennas,
          ((data.getD i []).map (fun s => Complex.abs (toC s))).sum *
            Real.cos (cfg.antenna_angle i),
        ∑ i ∈ Finset.range cfg.max_antennas,
          ((data.getD i []).map (fun s => Complex.abs (toC s))).sum *
            Real.sin (cfg.antenna_angle i)⟩ ∧
    (cfg.max_antennas = 4 → cfg.offset_rad = 0 →
      ∀ M : ℝ, (∀ i, i < 4 → magnitude_sum (data.getD i []) = M) →
        calculate_aoa cfg data last = 0) := by
  have hany : ¬ (data.any List.isEmpty = true) := by
    rw [any_isEmpty_false_of_ne data hne]
    simp
  constructor
  · rw [calculate_aoa, if_neg hany]
    simp only [magnitude_sum_eq_abs]
  · intro h4 hoff M hM
    rw [calculate_aoa, if_neg hany]
    have hM0 := hM 0 (by norm_num)
    have hM1 := hM 1 (by norm_num)
    have hM2 := hM 2 (by norm_num)
    have hM3 := hM 3 (by norm_num)
    simp only [h4, Finset.sum_range_succ, Finset.sum_range_zero, zero_add, hM0, hM1, hM2,
      hM3, Cfg.antenna_angle, hoff, add_zero, Nat.cast_zero, Nat.cast_one, Nat.cast_ofNat,
      zero_mul, one_mul]
    have e2 : 2 * (2 * Real.pi / 4) = Real.pi := by ring
    have e3 : 3 * (2 * Real.pi / 4) = Real.pi + Real.pi / 2 := by ring
    have e1 : 2 * Real.pi / 4 = Real.pi / 2 := by ring
    rw [e2, e3, e1]
    simp only [Real.cos_zero, Real.sin_zero, Real.cos_pi, Real.sin_pi,
      Real.cos_pi_div_two, Real.sin_pi_div_two, Real.cos_add, Real.sin_add]
    rw [Complex.ext_iff]
    constructor
    · simp
    · simp

def cfgC : Cfg :=
  { threshold := 1, max_antennas := 4, samples_per_antenna := 1, settling_samp := 0, offset_rad := 0 }

def dataC : List (List Sample) := [[(1,0)], [(1,0)], [(1,0)], [(1,0)]]

/-- Witness for C3 with four one-sample bins of modulus one. -/
theorem claim_C3_witness :
    dataC.length = cfgC.max_antennas ∧ (∀ b ∈ dataC, b ≠ ([] : List Sample)) ∧
    (calculate_aoa cfgC dataC 0 =
      ⟨∑ i ∈ Finset.range cfgC.max_antennas,
          ((dataC.getD i []).map (fun s => Complex.abs (toC s))).sum *
            Real.cos (cfgC.antenna_angle i),
        ∑ i ∈ Finset.range cfgC.max_antennas,
          ((dataC.getD i []).map (fun s => Complex.abs (toC s))).sum *
            Real.sin (cfgC.antenna_angle i)⟩ ∧
    (cfgC.max_antennas = 4 → cfgC.offset_rad = 0 →
      ∀ M : ℝ, (∀ i, i < 4 → magnitude_sum (dataC.getD i []) = M) →
        calculate_aoa cfgC dataC 0 = 0)) :=
  ⟨by decide, by decide, claim_C3 cfgC dataC 0 (by decide) (by decide)⟩

/-- Amended claim C6: the output buffer has exactly the input's length and
every output sample equals the AOA estimate held at call entry
(`out[:] = self.lastAOA` precedes the loop); an estimate computed by a frame
completing within the call first appears in the following call's output. -/
theorem claim_C6_amended (cfg : Cfg) (st : SyncState) (l : List Sample) (j : ℕ)
    (hj : j < l.length) :
    ((work cfg st l).2).length = l.length ∧
    ((work cfg st l).2).getD j 0 = st.lastAOA := by
  constructor
  · simp [work]
  · show (List.replicate l.length st.lastAOA).getD j 0 = st.lastAOA
    rw [List.getD_eq_getElem?_getD, List.getElem?_replicate, if_pos hj]
    rfl

/-- Witness for the amended C6. -/
theorem claim_C6_amended_witness :
    0 < [((1:ℚ),(0:ℚ))].length ∧
    (((work cfgW (initState cfgW) [((1:ℚ),(0:ℚ))]).2).length = [((1:ℚ),(0:ℚ))].length ∧
      ((work cfgW (initState cfgW) [((1:ℚ),(0:ℚ))]).2).getD 0 0 = (initState cfgW).lastAOA) :=
  ⟨by decide, claim_C6_amended cfgW (initState cfgW) [((1:ℚ),(0:ℚ))] 0 (by decide)⟩

/-- Counterexample to C6 as stated: on `inputA` the frame completes at the
third sample and the held estimate becomes `2`, yet the fourth output sample
of the very same call is still `0`: an output sample need not equal the
estimate held at the moment it is processed. -/
theorem claim_C6_counterexample :
    ((work cfgA (initState cfgA) inputA).2).getD 3 0 = 0 ∧
    (work cfgA (initState cfgA) inputA).1 =
      some (List.foldl (step1 cfgA) (initState cfgA) inputA) ∧
    (List.foldl (step1 cfgA) (initState cfgA) inputA).lastAOA = 2 ∧
    ((work cfgA (initState cfgA) inputA).2).getD 3 0 ≠
      (List.foldl (step1 cfgA) (initState cfgA) inputA).lastAOA := by
  have hout : ((work cfgA (initState cfgA) inputA).2).getD 3 0 = 0 := by
    show (List.replicate inputA.length (initState cfgA).lastAOA).getD 3 0 = 0
    rw [List.getD_eq_getElem?_getD, List.getElem?_replicate, if_pos (by decide)]
    rfl
  have hw : (work cfgA (initState cfgA) inputA).1 =
      some (List.foldl (step1 cfgA) (initState cfgA) inputA) :=
    work_fst_eq_foldl cfgA (by decide) (initState cfgA) inputA
      (fun h => absurd h (by decide))
  have haoa : (List.foldl (step1 cfgA) (initState cfgA) inputA).lastAOA = 2 := by
    rw [foldA]
    exact calcA_eval
  refine ⟨hout, hw, haoa, ?_⟩
  rw [hout, haoa]
  norm_num [Complex.ext_iff]

theorem workLoop_capture_step (cfg : Cfg) (f cnt t : ℕ) (d : List (List Sample))
    (la : ℂ) (l : List Sample) (hl : ¬ (l = []))
    (h0n : 0 < min (cfg.frame_size - t) l.length) :
    workLoop cfg (f + 1) ⟨SyncMode.CAPTURE_FRAME, cnt, t, d, la⟩ l =
      if cfg.frame_size ≤ t + min (cfg.frame_size - t) l.length then
        workLoop cfg f
          ⟨SyncMode.SEARCH_RFX, 0, t + min (cfg.frame_size - t) l.length,
            binChunk cfg t (l.take (min (cfg.frame_size - t) l.length)) d,
            calculate_aoa cfg (binChunk cfg t (l.take (min (cfg.frame_size - t) l.length)) d) la⟩
          (l.drop (min (cfg.frame_size - t) l.length))
      else
        workLoop cfg f
          ⟨SyncMode.CAPTURE_FRAME, cnt, t + min (cfg.frame_size - t) l.length,
            binChunk cfg t (l.take (min (cfg.frame_size - t) l.length)) d, la⟩
          (l.drop (min (cfg.frame_size - t) l.length)) := by
  simp only [workLoop, if_neg hl, if_pos h0n]

/-- Amended claim C8: when the frame-position counter reaches `frame_size`
the estimator is invoked once, the state returns to `SEARCH_RFX` and the
silence counter clears, but the frame-position counter keeps the value
`frame_size` (it is reset to zero only on the next synchronisation); and a
buffer that does not complete the frame invokes no estimator and leaves the
held estimate untouched. -/
theorem claim_C8_amended (cfg : Cfg) (st : SyncState) (l1 l2 : List Sample) (f : ℕ)
    (hst : st.state = SyncMode.CAPTURE_FRAME)
    (hlt : st.total_sample_counter < cfg.frame_size)
    (hlen1 : l1.length = cfg.frame_size - st.total_sample_counter)
    (hlen2 : st.total_sample_counter + l2.length < cfg.frame_size) :
    workLoop cfg (f + 2) st l1 =
      some { st with
        antenna_data := binChunk cfg st.total_sample_counter l1 st.antenna_data,
        total_sample_counter := cfg.frame_size,
        lastAOA := calculate_aoa cfg (binChunk cfg st.total_sample_counter l1 st.antenna_data) st.lastAOA,
        state := SyncMode.SEARCH_RFX, counter := 0 } ∧
    workLoop cfg (f + 2) st l2 =
      some { st with
        antenna_data := binChunk cfg st.total_sample_counter l2 st.antenna_data,
        total_sample_counter := st.total_sample_counter + l2.length } := by
  obtain ⟨ms, cnt, t, d, la⟩ := st
  cases ms with
  | SEARCH_RFX => simp at hst
  | CAPTURE_FRAME =>
    dsimp only [] at hlt hlen1 hlen2
    constructor
    · have hl1 : ¬ (l1 = []) := by
        intro h
        rw [h] at hlen1
        simp at hlen1
        omega
      have hn : min (cfg.frame_size - t) l1.length = l1.length := by omega
      have h0n : 0 < min (cfg.frame_size - t) l1.length := by omega
      show workLoop cfg (f + 1 + 1) _ l1 = _
      rw [workLoop_capture_step cfg (f + 1) cnt t d la l1 hl1 h0n, hn]
      have hcomp : cfg.frame_size ≤ t + l1.length := by omega
      rw [if_pos hcomp, List.take_length, List.drop_length, workLoop_nil]
      have ht : t + l1.length = cfg.frame_size := by omega
      rw [ht]
    · by_cases hl2 : l2 = []
      · subst hl2
        show workLoop cfg (f + 1 + 1) _ [] = _
        rw [workLoop_nil, binChunk_nil_chunk]
        simp
      · have h0n : 0 < min (cfg.frame_size - t) l2.length := by
          have := List.length_pos.mpr hl2
          omega
        have hn2 : min (cfg.frame_size - t) l2.length = l2.length := by omega
        have hncomp : ¬ (cfg.frame_size ≤ t + l2.length) := by omega
        show workLoop cfg (f + 1 + 1) _ l2 = _
        rw [workLoop_capture_step cfg (f + 1) cnt t d la l2 hl2 h0n, hn2]
        rw [if_neg hncomp, List.take_length, List.drop_length, workLoop_nil]

/-- Witness for the amended C8 (a completing buffer and a partial buffer). -/
theorem claim_C8_amended_witness :
    ((⟨SyncMode.CAPTURE_FRAME, 5, 0, [[]], 0⟩ : SyncState).state = SyncMode.CAPTURE_FRAME) ∧
    ((⟨SyncMode.CAPTURE_FRAME, 5, 0, [[]], 0⟩ : SyncState).total_sample_counter < cfgA.frame_size) ∧
    ([((1:ℚ),(0:ℚ)), ((1:ℚ),(0:ℚ))].length =
      cfgA.frame_size - (⟨SyncMode.CAPTURE_FRAME, 5, 0, [[]], 0⟩ : SyncState).total_sample_counter) ∧
    ((⟨SyncMode.CAPTURE_FRAME, 5, 0, [[]], 0⟩ : SyncState).total_sample_counter +
        [((1:ℚ),(0:ℚ))].length < cfgA.frame_size) ∧
    (workLoop cfgA 4 ⟨SyncMode.CAPTURE_FRAME, 5, 0, [[]], 0⟩ [((1:ℚ),(0:ℚ)), ((1:ℚ),(0:ℚ))] =
      some { (⟨SyncMode.CAPTURE_FRAME, 5, 0, [[]], 0⟩ : SyncState) with
        antenna_data := binChunk cfgA 0 [((1:ℚ),(0:ℚ)), ((1:ℚ),(0:ℚ))] [[]],
        total_sample_counter := cfgA.frame_size,
        lastAOA := calculate_aoa cfgA (binChunk cfgA 0 [((1:ℚ),(0:ℚ)), ((1:ℚ),(0:ℚ))] [[]]) 0,
        state := SyncMode.SEARCH_RFX, counter := 0 } ∧
    workLoop cfgA 4 ⟨SyncMode.CAPTURE_FRAME, 5, 0, [[]], 0⟩ [((1:ℚ),(0:ℚ))] =
      some { (⟨SyncMode.CAPTURE_FRAME, 5, 0, [[]], 0⟩ : SyncState) with
        antenna_data := binChunk cfgA 0 [((1:ℚ),(0:ℚ))] [[]],
        total_sample_counter := 0 + [((1:ℚ),(0:ℚ))].length }) :=
  ⟨rfl, by decide, by decide, by decide,
    claim_C8_amended cfgA ⟨SyncMode.CAPTURE_FRAME, 5, 0, [[]], 0⟩
      [((1:ℚ),(0:ℚ)), ((1:ℚ),(0:ℚ))] [((1:ℚ),(0:ℚ))] 2 rfl (by decide) (by decide) (by decide)⟩

def input8 : List Sample := [(0, 0), (1, 0), (1, 0)]

/-- Counterexample to C8 as stated: on `input8` the frame completes (the state
returns to `SEARCH_RFX` with the silence counter cleared), but the
frame-position counter holds `frame_size = 2`, not zero. -/
theorem claim_C8_counterexample :
    ((work cfgA (initState cfgA) input8).1).map
        (fun s => (s.state, s.counter, s.total_sample_counter)) =
      some (SyncMode.SEARCH_RFX, 0, 2) ∧
    cfgA.frame_size = 2 ∧ (2 : ℕ) ≠ 0 := by
  have hw := work_fst_eq_foldl cfgA (by decide) (initState cfgA) input8
    (fun h => absurd h (by decide))
  have hfold : List.foldl (step1 cfgA) (initState cfgA) input8 =
      ⟨SyncMode.SEARCH_RFX, 0, 2, [[((1:ℚ),(0:ℚ)), ((1:ℚ),(0:ℚ))]],
        calculate_aoa cfgA [[((1:ℚ),(0:ℚ)), ((1:ℚ),(0:ℚ))]] 0⟩ := by
    show List.foldl (step1 cfgA) (initState cfgA)
        [((0:ℚ),(0:ℚ)), ((1:ℚ),(0:ℚ)), ((1:ℚ),(0:ℚ))] = _
    rw [List.foldl_cons, stepA0, List.foldl_cons, stepA1, List.foldl_cons, stepA2,
      List.foldl_nil]
  rw [hw, hfold]
  exact ⟨rfl, rfl, by decide⟩
